import Mathlib

/-!
# Verification of the pixel-art drawing application

A shallow embedding of `src/pixel-art/src/App.tsx`.

JavaScript strings are modelled as `List Char` (`Str`), and the
`Map<string, string>` holding painted pixels is modelled as an
insertion-ordered association list with JavaScript `Map` semantics:
`set` on an existing key overwrites the value in place (keeping the
key's position), `set` on a fresh key appends at the end, `delete`
removes the entry, and iteration (`forEach`) visits entries in list
order, exactly as a JS `Map` iterates in insertion order.
-/

/-- JavaScript strings modelled as lists of characters. -/
abbrev Str := List Char

/-- Sugar for writing `Str` literals. -/
def str (s : String) : Str := s.data

/-! ## JavaScript `Map` semantics on association lists -/

/-- `Map.prototype.set`: overwrite in place if the key is present,
otherwise append the new entry at the end (JS insertion order). -/
def mapSet : List (Str × Str) → Str → Str → List (Str × Str)
  | [], k, v => [(k, v)]
  | (k', v') :: rest, k, v =>
    if k' = k then (k, v) :: rest else (k', v') :: mapSet rest k v

/-- `Map.prototype.delete`: remove the entry with the given key. -/
def mapDelete : List (Str × Str) → Str → List (Str × Str)
  | [], _ => []
  | (k', v') :: rest, k =>
    if k' = k then rest else (k', v') :: mapDelete rest k

/-- `Map.prototype.get`: the value stored at a key, if any. -/
def mapGet : List (Str × Str) → Str → Option Str
  | [], _ => none
  | (k', v) :: rest, k => if k' = k then some v else mapGet rest k

/-- The keys of a map, in insertion order. -/
def mapKeys (m : List (Str × Str)) : List Str := m.map Prod.fst

/-- A JS `Map` never holds two entries with the same key. -/
def NodupKeys (m : List (Str × Str)) : Prop := (mapKeys m).Nodup

theorem mapGet_eq_none_of_not_mem_keys {m : List (Str × Str)} {k : Str}
    (h : k ∉ mapKeys m) : mapGet m k = none := by
  induction m with
  | nil => rfl
  | cons e rest ih =>
    obtain ⟨k', v⟩ := e
    simp only [mapKeys, List.map_cons, List.mem_cons, not_or] at h
    simp only [mapGet]
    rw [if_neg (fun hk => h.1 hk.symm)]
    exact ih h.2

theorem mem_keys_mapSet : ∀ (m : List (Str × Str)) (k k' v : Str),
    k' ∈ mapKeys (mapSet m k v) ↔ k' = k ∨ k' ∈ mapKeys m
  | [], k, k', v => by simp [mapSet, mapKeys]
  | (k₀, v₀) :: rest, k, k', v => by
    by_cases h₀ : k₀ = k
    · subst h₀
      simp [mapSet, mapKeys]
    · have ih := mem_keys_mapSet rest k k' v
      simp only [mapSet, if_neg h₀, mapKeys, List.map_cons, List.mem_cons] at ih ⊢
      tauto

theorem mem_keys_mapDelete : ∀ (m : List (Str × Str)) (k k' : Str),
    k' ∈ mapKeys (mapDelete m k) → k' ∈ mapKeys m
  | [], _, _ => fun h => h
  | (k₀, v₀) :: rest, k, k' => by
    by_cases h₀ : k₀ = k
    · subst h₀
      simp only [mapDelete, if_pos rfl, mapKeys, List.map_cons, List.mem_cons]
      exact fun h => Or.inr h
    · have ih := mem_keys_mapDelete rest k k'
      simp only [mapDelete, if_neg h₀, mapKeys, List.map_cons, List.mem_cons] at ih ⊢
      exact fun h => h.elim Or.inl (fun hh => Or.inr (ih hh))

theorem mapGet_mapSet : ∀ (m : List (Str × Str)) (k k' v : Str),
    mapGet (mapSet m k v) k' = if k = k' then some v else mapGet m k'
  | [], k, k', v => by simp [mapSet, mapGet]
  | (k₀, v₀) :: rest, k, k', v => by
    by_cases h₀ : k₀ = k
    · subst h₀
      by_cases h' : k₀ = k' <;> simp [mapSet, mapGet, h']
    · have ih := mapGet_mapSet rest k k' v
      by_cases h' : k₀ = k'
      · subst h'
        have hne : ¬k = k₀ := fun h => h₀ h.symm
        simp [mapSet, mapGet, h₀, hne]
      · simp [mapSet, mapGet, h₀, h', ih]

theorem mapGet_mapDelete : ∀ (m : List (Str × Str)), NodupKeys m → ∀ (k k' : Str),
    mapGet (mapDelete m k) k' = if k = k' then none else mapGet m k'
  | [], _, k, k' => by simp [mapDelete, mapGet]
  | (k₀, v₀) :: rest, hm, k, k' => by
    have hm' : k₀ ∉ mapKeys rest ∧ NodupKeys rest := by
      simpa [NodupKeys, mapKeys] using hm
    by_cases h₀ : k₀ = k
    · subst h₀
      by_cases h' : k₀ = k'
      · subst h'
        simpa [mapDelete] using mapGet_eq_none_of_not_mem_keys hm'.1
      · simp [mapDelete, mapGet, h']
    · have ih := mapGet_mapDelete rest hm'.2 k k'
      by_cases h' : k₀ = k'
      · subst h'
        have hne : ¬k = k₀ := fun h => h₀ h.symm
        simp [mapDelete, mapGet, h₀, hne]
      · simp [mapDelete, mapGet, h₀, h', ih]

theorem nodupKeys_mapSet : ∀ (m : List (Str × Str)), NodupKeys m → ∀ (k v : Str),
    NodupKeys (mapSet m k v)
  | [], _, k, v => by simp [mapSet, NodupKeys, mapKeys]
  | (k₀, v₀) :: rest, hm, k, v => by
    have hm' : k₀ ∉ mapKeys rest ∧ NodupKeys rest := by
      simpa [NodupKeys, mapKeys] using hm
    by_cases h₀ : k₀ = k
    · subst h₀
      simpa [mapSet, NodupKeys, mapKeys] using hm
    · have ih := nodupKeys_mapSet rest hm'.2 k v
      simp only [mapSet, if_neg h₀, NodupKeys, mapKeys, List.map_cons, List.nodup_cons]
      refine ⟨fun hk => ?_, ih⟩
      rcases (mem_keys_mapSet rest k k₀ v).1 hk with h | h
      · exact h₀ h
      · exact hm'.1 h

theorem nodupKeys_mapDelete : ∀ (m : List (Str × Str)), NodupKeys m → ∀ (k : Str),
    NodupKeys (mapDelete m k)
  | [], hm, _ => hm
  | (k₀, v₀) :: rest, hm, k => by
    have hm' : k₀ ∉ mapKeys rest ∧ NodupKeys rest := by
      simpa [NodupKeys, mapKeys] using hm
    by_cases h₀ : k₀ = k
    · subst h₀
      simpa [mapDelete] using hm'.2
    · have ih := nodupKeys_mapDelete rest hm'.2 k
      simp only [mapDelete, if_neg h₀, NodupKeys, mapKeys, List.map_cons, List.nodup_cons]
      exact ⟨fun hk => hm'.1 (mem_keys_mapDelete rest k k₀ hk), ih⟩

/-! ## Decimal numerals and the `"x-y"` pixel-key codec

JavaScript template interpolation of a nonnegative integer prints its
decimal numeral; `Number(s)` on a decimal numeral parses it back.
`jsNumber` models `Number` on the fragment this program exercises:
`Number("") = 0`, a string of decimal digits parses to its value, and
any other character yields `NaN` (modelled as `none`).
-/

/-- Value of a decimal digit character, if it is one. -/
def digitVal? (c : Char) : Option Nat :=
  if 48 ≤ c.toNat ∧ c.toNat ≤ 57 then some (c.toNat - 48) else none

/-- JS `Number` on a string: `"" ↦ 0`, digit strings parse in base 10,
anything else is `NaN` (`none`). -/
def jsNumber (cs : Str) : Option Nat :=
  cs.foldl (fun acc c =>
    match acc, digitVal? c with
    | some a, some d => some (10 * a + d)
    | _, _ => none) (some 0)

/-- Decimal printing with explicit fuel (the fuel only needs to exceed
the number being printed; see `toDecimalAux_eq`). -/
def toDecimalAux : Nat → Nat → Str
  | 0, _ => []
  | fuel + 1, n =>
    if n < 10 then [Nat.digitChar n]
    else toDecimalAux fuel (n / 10) ++ [Nat.digitChar (n % 10)]

/-- The decimal numeral of a natural number, as JS `${n}` prints it. -/
def natChars (n : Nat) : Str := toDecimalAux (n + 1) n

/-- `String.prototype.split('-')`. -/
def splitOnDash : Str → List Str
  | [] => [[]]
  | c :: cs =>
    if c = '-' then [] :: splitOnDash cs
    else
      match splitOnDash cs with
      | [] => [[c]]
      | p :: ps => (c :: p) :: ps

/-- `key.split('-').map(Number)` destructured as `const [x, y] = …`:
the first two parts, parsed as numbers (`none` for `NaN`/missing). -/
def keyCoords (k : Str) : Option Nat × Option Nat :=
  match (splitOnDash k).map jsNumber with
  | x :: y :: _ => (x, y)
  | [x] => (x, none)
  | [] => (none, none)

/-- `getPixelKey` (App.tsx line 32): the template string `${x}-${y}`. -/
def getPixelKey (x y : Nat) : Str := natChars x ++ '-' :: natChars y

theorem toDecimalAux_eq (n : Nat) : ∀ f₁ f₂ : Nat, n < f₁ → n < f₂ →
    toDecimalAux f₁ n = toDecimalAux f₂ n := by
  induction n using Nat.strong_induction_on with
  | _ n ih =>
    intro f₁ f₂ h₁ h₂
    match f₁, f₂ with
    | g₁ + 1, g₂ + 1 =>
      by_cases hn : n < 10
      · simp [toDecimalAux, hn]
      · have hd : n / 10 < n := Nat.div_lt_self (by omega) (by omega)
        simp only [toDecimalAux, if_neg hn]
        rw [ih (n / 10) hd g₁ g₂ (by omega) (by omega)]

theorem digitChar_ne_dash : ∀ d : Nat, d < 10 → Nat.digitChar d ≠ '-' := by decide

theorem digitVal?_digitChar : ∀ d : Nat, d < 10 →
    digitVal? (Nat.digitChar d) = some d := by decide

theorem dash_not_mem_natChars (n : Nat) : '-' ∉ natChars n := by
  induction n using Nat.strong_induction_on with
  | _ n ih =>
    unfold natChars
    by_cases hn : n < 10
    · simp only [toDecimalAux, if_pos hn, List.mem_singleton]
      exact fun h => digitChar_ne_dash n hn h.symm
    · have hd : n / 10 < n := Nat.div_lt_self (by omega) (by omega)
      simp only [toDecimalAux, if_neg hn, List.mem_append, List.mem_singleton]
      rintro (h | h)
      · rw [toDecimalAux_eq (n / 10) n (n / 10 + 1) hd (Nat.lt_succ_self _)] at h
        exact ih (n / 10) hd h
      · exact digitChar_ne_dash (n % 10) (Nat.mod_lt _ (by omega)) h.symm

theorem jsNumber_append_digit (cs : Str) (c : Char) (a d : Nat)
    (h1 : jsNumber cs = some a) (h2 : digitVal? c = some d) :
    jsNumber (cs ++ [c]) = some (10 * a + d) := by
  unfold jsNumber at h1 ⊢
  rw [List.foldl_append, h1]
  simp only [List.foldl_cons, List.foldl_nil]
  simp [h2]

theorem jsNumber_natChars (n : Nat) : jsNumber (natChars n) = some n := by
  induction n using Nat.strong_induction_on with
  | _ n ih =>
    unfold natChars
    by_cases hn : n < 10
    · simp only [toDecimalAux, if_pos hn]
      have hd := digitVal?_digitChar n hn
      simp [jsNumber, hd]
    · have hdiv : n / 10 < n := Nat.div_lt_self (by omega) (by omega)
      simp only [toDecimalAux, if_neg hn]
      rw [toDecimalAux_eq (n / 10) n (n / 10 + 1) hdiv (Nat.lt_succ_self _)]
      have h1 : jsNumber (natChars (n / 10)) = some (n / 10) := ih (n / 10) hdiv
      have hd := digitVal?_digitChar (n % 10) (Nat.mod_lt _ (by omega))
      rw [show toDecimalAux (n / 10 + 1) (n / 10) = natChars (n / 10) from rfl]
      rw [jsNumber_append_digit _ _ _ _ h1 hd]
      exact congrArg some (by omega)

theorem splitOnDash_no_dash : ∀ cs : Str, '-' ∉ cs → splitOnDash cs = [cs]
  | [], _ => rfl
  | c :: cs, h => by
    have hc : ¬c = '-' := fun hh => h (hh ▸ List.mem_cons_self c cs)
    have hcs : '-' ∉ cs := fun hh => h (List.mem_cons_of_mem c hh)
    simp only [splitOnDash, if_neg hc, splitOnDash_no_dash cs hcs]

theorem splitOnDash_append (a b : Str) (ha : '-' ∉ a) :
    splitOnDash (a ++ '-' :: b) = a :: splitOnDash b := by
  induction a with
  | nil => simp [splitOnDash]
  | cons c cs ih =>
    have hc : ¬c = '-' := fun hh => ha (hh ▸ List.mem_cons_self c cs)
    have hcs : '-' ∉ cs := fun hh => ha (List.mem_cons_of_mem c hh)
    simp only [List.cons_append, splitOnDash, if_neg hc, List.append_eq]
    rw [ih hcs]

theorem keyCoords_getPixelKey (x y : Nat) :
    keyCoords (getPixelKey x y) = (some x, some y) := by
  unfold keyCoords getPixelKey
  rw [splitOnDash_append _ _ (dash_not_mem_natChars x),
    splitOnDash_no_dash _ (dash_not_mem_natChars y)]
  simp [jsNumber_natChars]

theorem getPixelKey_inj {x y x' y' : Nat}
    (h : getPixelKey x y = getPixelKey x' y') : x = x' ∧ y = y' := by
  have h1 := keyCoords_getPixelKey x y
  rw [h, keyCoords_getPixelKey] at h1
  simp only [Prod.mk.injEq, Option.some.injEq] at h1
  exact ⟨h1.1.symm, h1.2.symm⟩

/-! ## Application state and event handlers (App.tsx) -/

/-- The `GridSize` type (App.tsx lines 3–6). -/
structure GridSize where
  width : Nat
  height : Nat
  deriving DecidableEq

/-- The mutable state of the `App` component: `gridSize`,
`selectedColor`, `pixels`, `isDrawing`, `recentColors`
(App.tsx lines 9–14). The `isMobile` flag and the canvas ref are
visual chrome and carry no painting state. -/
structure AppState where
  gridSize : GridSize
  selectedColor : Str
  pixels : List (Str × Str)
  isDrawing : Bool
  recentColors : List Str
  deriving DecidableEq

/-- The initial component state (App.tsx lines 9–14): selected color
`#3b82f6`, empty pixel map, not drawing, history seeded with the
initial selected color. The geometry is a parameter (the source picks
16×16 or 32×32 from the viewport width). -/
def initialState (g : GridSize) : AppState :=
  { gridSize := g
    selectedColor := str "#3b82f6"
    pixels := []
    isDrawing := false
    recentColors := [str "#3b82f6"] }

/-- `addToRecentColors` (App.tsx lines 36–42): drop the color from its
old position, prepend it, keep only the first 10. -/
def addToRecentColors (color : Str) (prev : List Str) : List Str :=
  (color :: prev.filter (fun c => c ≠ color)).take 10

/-- `handleColorChange` (App.tsx lines 44–47): the color-picker path.
Sets the selected color and records it in the history. -/
def handleColorChange (color : Str) (s : AppState) : AppState :=
  { s with
    selectedColor := color
    recentColors := addToRecentColors color s.recentColors }

/-- The recent-color swatch `onClick` (App.tsx line 237): it only sets
the selected color and does not touch the history. -/
def swatchClick (color : Str) (s : AppState) : AppState :=
  { s with selectedColor := color }

/-- `handlePixelClick` (App.tsx lines 49–61): shift-click erases the
cell; a plain click paints it with the selected color and records that
color in the history. -/
def handlePixelClick (x y : Nat) (shiftKey : Bool) (s : AppState) : AppState :=
  let pixelKey := getPixelKey x y
  if shiftKey then
    { s with pixels := mapDelete s.pixels pixelKey }
  else
    { s with
      pixels := mapSet s.pixels pixelKey s.selectedColor
      recentColors := addToRecentColors s.selectedColor s.recentColors }

/-- `handleTouchClick` (App.tsx lines 63–75): a tap with more than one
simultaneous touch erases; a single-contact tap paints. -/
def handleTouchClick (x y : Nat) (touches : Nat) (s : AppState) : AppState :=
  let pixelKey := getPixelKey x y
  if touches > 1 then
    { s with pixels := mapDelete s.pixels pixelKey }
  else
    { s with
      pixels := mapSet s.pixels pixelKey s.selectedColor
      recentColors := addToRecentColors s.selectedColor s.recentColors }

/-- `handleMouseDown` (App.tsx lines 77–79). -/
def handleMouseDown (s : AppState) : AppState := { s with isDrawing := true }

/-- `handleMouseUp` (App.tsx lines 81–83). -/
def handleMouseUp (s : AppState) : AppState := { s with isDrawing := false }

/-- `handlePixelMouseEnter` (App.tsx lines 85–93): while drawing,
entering a cell paints it with the selected color and records that
color; it never erases. -/
def handlePixelMouseEnter (x y : Nat) (s : AppState) : AppState :=
  if s.isDrawing then
    { s with
      pixels := mapSet s.pixels (getPixelKey x y) s.selectedColor
      recentColors := addToRecentColors s.selectedColor s.recentColors }
  else s

/-- `handleTouchMove` (App.tsx lines 95–104): identical painting logic
to `handlePixelMouseEnter`; the touch event itself is only used for
`preventDefault`. -/
def handleTouchMove (x y : Nat) (s : AppState) : AppState :=
  if s.isDrawing then
    { s with
      pixels := mapSet s.pixels (getPixelKey x y) s.selectedColor
      recentColors := addToRecentColors s.selectedColor s.recentColors }
  else s

/-- `clearCanvas` (App.tsx lines 158–160): empties the pixel map. -/
def clearCanvas (s : AppState) : AppState := { s with pixels := [] }

/-- Host input events, as wired up in `renderGrid` and the sidebar
(App.tsx lines 162–241). `pixelMouseEnter` carries the modifier state
of the underlying DOM event, but the handler registered at line 177
discards the event, so the modifier is ignored; likewise `touchMove`
carries the contact count, which `handleTouchMove` ignores. A
`touchStart` runs `handleMouseDown` and then `handleTouchClick`
(lines 179–182). -/
inductive Event where
  | colorChange (color : Str)
  | swatchClick (color : Str)
  | pixelClick (x y : Nat) (shiftKey : Bool)
  | mouseDown
  | mouseUp
  | pixelMouseEnter (x y : Nat) (shiftKey : Bool)
  | touchStart (x y : Nat) (touches : Nat)
  | touchEnd
  | touchMove (x y : Nat) (touches : Nat)
  | clear

/-- One step of the event-driven session: dispatch an event to its
handler exactly as the JSX wires them up. -/
def step (s : AppState) : Event → AppState
  | .colorChange color => handleColorChange color s
  | .swatchClick color => swatchClick color s
  | .pixelClick x y shiftKey => handlePixelClick x y shiftKey s
  | .mouseDown => handleMouseDown s
  | .mouseUp => handleMouseUp s
  | .pixelMouseEnter x y _ => handlePixelMouseEnter x y s
  | .touchStart x y touches => handleTouchClick x y touches (handleMouseDown s)
  | .touchEnd => handleMouseUp s
  | .touchMove x y _ => handleTouchMove x y s
  | .clear => clearCanvas s

/-- Run a finite event sequence from a state. -/
def run (s : AppState) (evs : List Event) : AppState := evs.foldl step s

/-! ## The two exporters -/

/-- Decimal text of a parsed coordinate; `NaN` prints as `"NaN"` in JS
string interpolation. -/
def numText : Option Nat → Str
  | some n => natChars n
  | none => str "NaN"

/-- One `ctx.fillRect` call of `downloadAsPNG` (App.tsx lines 118–122):
the key is decoded with `split('-').map(Number)` and the square
`(x*10, y*10, 10, 10)` is filled with the stored color. -/
def pngFillOf (e : Str × Str) : (Option Nat × Option Nat) × (Nat × Nat) × Str :=
  (((keyCoords e.1).1.map (fun x => x * 10), (keyCoords e.1).2.map (fun y => y * 10)),
    (10, 10), e.2)

/-- The full list of fill commands `downloadAsPNG` issues, in the
map's insertion order (`pixels.forEach`). -/
def pngFills (pixels : List (Str × Str)) :
    List ((Option Nat × Option Nat) × (Nat × Nat) × Str) :=
  pixels.map pngFillOf

/-- The raster canvas size set by `downloadAsPNG` (App.tsx lines
113–114): `(width*10, height*10)`. -/
def pngCanvasSize (g : GridSize) : Nat × Nat := (g.width * 10, g.height * 10)

/-- One `<rect …/>` fragment of `downloadAsSVG` (App.tsx lines
142–145). -/
def svgRectOf (e : Str × Str) : Str :=
  str "<rect x=\"" ++ numText ((keyCoords e.1).1.map (fun x => x * 10)) ++
  str "\" y=\"" ++ numText ((keyCoords e.1).2.map (fun y => y * 10)) ++
  str "\" width=\"10\" height=\"10\" fill=\"" ++ e.2 ++ str "\"/>"

/-- The opening `<svg …>` tag (App.tsx lines 137–140), declaring the
canvas size `(width*10, height*10)`. -/
def svgHeader (g : GridSize) : Str :=
  str "<svg width=\"" ++ natChars (g.width * 10) ++
  str "\" height=\"" ++ natChars (g.height * 10) ++
  str "\" xmlns=\"http://www.w3.org/2000/svg\">"

/-- The whole SVG document built by `downloadAsSVG` (App.tsx lines
136–147): header, then one `<rect/>` per map entry in insertion order
(`pixels.forEach` appending to `svgContent`), then `</svg>`. -/
def svgDocument (g : GridSize) (pixels : List (Str × Str)) : Str :=
  (pixels.foldl (fun acc e => acc ++ svgRectOf e) (svgHeader g)) ++ str "</svg>"

/-! ## Helper lemmas -/

theorem getPixelKey_eq_iff {x y x' y' : Nat} :
    getPixelKey x y = getPixelKey x' y' ↔ x = x' ∧ y = y' :=
  ⟨getPixelKey_inj, fun h => by rw [h.1, h.2]⟩

theorem addToRecentColors_eq (color : Str) (prev : List Str) :
    addToRecentColors color prev =
      color :: (prev.filter (fun c => c ≠ color)).take 9 := rfl

theorem addToRecentColors_head (color : Str) (prev : List Str) :
    (addToRecentColors color prev).head? = some color := rfl

theorem mem_addToRecentColors (color : Str) (prev : List Str) :
    color ∈ addToRecentColors color prev := by
  rw [addToRecentColors_eq]
  exact List.mem_cons_self _ _

theorem addToRecentColors_length_le (color : Str) (prev : List Str) :
    (addToRecentColors color prev).length ≤ 10 := by
  unfold addToRecentColors
  rw [List.length_take]
  exact min_le_left _ _

theorem addToRecentColors_nodup (color : Str) {prev : List Str}
    (hl : prev.Nodup) : (addToRecentColors color prev).Nodup := by
  unfold addToRecentColors
  refine List.Nodup.sublist (List.take_sublist _ _) (List.nodup_cons.2 ⟨?_, hl.filter _⟩)
  intro hc
  rcases List.mem_filter.1 hc with ⟨_, hdec⟩
  simp at hdec

theorem foldl_addTo_invariant : ∀ (cs : List Str) (h0 : List Str),
    h0.Nodup → h0.length ≤ 10 →
    (cs.foldl (fun h col => addToRecentColors col h) h0).Nodup ∧
    (cs.foldl (fun h col => addToRecentColors col h) h0).length ≤ 10
  | [], _, hn, hl => ⟨hn, hl⟩
  | col :: cs, h0, hn, _ =>
    foldl_addTo_invariant cs (addToRecentColors col h0)
      (addToRecentColors_nodup col hn) (addToRecentColors_length_le col h0)

theorem foldl_addTo_head : ∀ (cs : List Str) (h0 : List Str) (c : Str),
    cs.getLast? = some c →
    (cs.foldl (fun h col => addToRecentColors col h) h0).head? = some c
  | [], _, _ => by intro h; cases h
  | [col], h0, c => by
    intro h
    have hc : col = c := by simpa using h
    subst hc
    exact addToRecentColors_head col h0
  | col :: col' :: cs, h0, c => by
    intro h
    rw [List.getLast?_cons_cons] at h
    exact foldl_addTo_head (col' :: cs) (addToRecentColors col h0) c h

/-- The history after a finite sequence of `addToRecentColors`
(`ColorHistory.use`) calls, starting from the seeded initial history
`['#3b82f6']` (App.tsx line 14). -/
def historyAfter (cs : List Str) : List Str :=
  cs.foldl (fun h col => addToRecentColors col h) [str "#3b82f6"]

/-! ## The claims -/

/-- C4: after any finite sequence of `use` calls starting from the
seeded history, the history has length at most 10, its entries are
pairwise distinct, and the color of the most recent `use` call is at
index 0. -/
theorem claim_C4_history_invariant (cs : List Str) :
    (historyAfter cs).length ≤ 10 ∧ (historyAfter cs).Nodup ∧
    (∀ c, cs.getLast? = some c → (historyAfter cs).head? = some c) := by
  have hinv := foldl_addTo_invariant cs [str "#3b82f6"] (by simp) (by simp)
  exact ⟨hinv.2, hinv.1, fun c hc => foldl_addTo_head cs _ c hc⟩

/-- Witness for C4 at the one-call sequence `["#ff0000"]`. -/
theorem claim_C4_history_invariant_witness :
    (historyAfter [str "#ff0000"]).length ≤ 10 ∧
    (historyAfter [str "#ff0000"]).Nodup ∧
    (historyAfter [str "#ff0000"]).head? = some (str "#ff0000") :=
  ⟨(claim_C4_history_invariant [str "#ff0000"]).1,
   (claim_C4_history_invariant [str "#ff0000"]).2.1,
   (claim_C4_history_invariant [str "#ff0000"]).2.2 _ (by decide)⟩

/-- C9: `clearCanvas` removes every entry and keeps the geometry; an
export right after clear has no filled regions (no `fillRect` calls,
no `<rect/>` fragments) and declares canvas size `(W·10, H·10)`. -/
theorem claim_C9_clear_then_export (s : AppState) :
    (clearCanvas s).gridSize = s.gridSize ∧
    (clearCanvas s).pixels = [] ∧
    (∀ k, mapGet (clearCanvas s).pixels k = none) ∧
    pngFills (clearCanvas s).pixels = [] ∧
    pngCanvasSize (clearCanvas s).gridSize = (s.gridSize.width * 10, s.gridSize.height * 10) ∧
    svgDocument (clearCanvas s).gridSize (clearCanvas s).pixels =
      svgHeader s.gridSize ++ str "</svg>" :=
  ⟨rfl, rfl, fun _ => rfl, rfl, rfl, rfl⟩

/-- C10: decoding a `getPixelKey`-produced key recovers exactly the
coordinates, so both exporters place the cell's square at
`(x·10, y·10)` with size `10×10` and the stored fill color. -/
theorem claim_C10_key_roundtrip_placement (x y : Nat) (c : Str) :
    keyCoords (getPixelKey x y) = (some x, some y) ∧
    pngFillOf (getPixelKey x y, c) = ((some (x * 10), some (y * 10)), (10, 10), c) ∧
    svgRectOf (getPixelKey x y, c) =
      str "<rect x=\"" ++ natChars (x * 10) ++ str "\" y=\"" ++ natChars (y * 10) ++
        str "\" width=\"10\" height=\"10\" fill=\"" ++ c ++ str "\"/>" := by
  refine ⟨keyCoords_getPixelKey x y, ?_, ?_⟩
  · simp [pngFillOf, keyCoords_getPixelKey]
  · simp [svgRectOf, keyCoords_getPixelKey, numText]

/-- C7: on an empty 4×4 grid, paint `(0,0)` with `#ff0000`, paint
`(1,1)` with `#00ff00`, erase `(0,0)`: the pixel map is exactly the
single-entry mapping `{(1,1) ↦ "#00ff00"}`, and the SVG export is the
`40×40` document containing exactly one `10×10` rectangle at
`(10,10)` filled `#00ff00`. -/
theorem claim_C7_paint_erase_scenario :
    (run (initialState ⟨4, 4⟩)
      [Event.colorChange (str "#ff0000"), Event.pixelClick 0 0 false,
       Event.colorChange (str "#00ff00"), Event.pixelClick 1 1 false,
       Event.pixelClick 0 0 true]).pixels = [(getPixelKey 1 1, str "#00ff00")] ∧
    (∀ x y : Nat,
      mapGet (run (initialState ⟨4, 4⟩)
        [Event.colorChange (str "#ff0000"), Event.pixelClick 0 0 false,
         Event.colorChange (str "#00ff00"), Event.pixelClick 1 1 false,
         Event.pixelClick 0 0 true]).pixels (getPixelKey x y) =
      if x = 1 ∧ y = 1 then some (str "#00ff00") else none) ∧
    svgDocument ⟨4, 4⟩ (run (initialState ⟨4, 4⟩)
      [Event.colorChange (str "#ff0000"), Event.pixelClick 0 0 false,
       Event.colorChange (str "#00ff00"), Event.pixelClick 1 1 false,
       Event.pixelClick 0 0 true]).pixels =
      str "<svg width=\"40\" height=\"40\" xmlns=\"http://www.w3.org/2000/svg\"><rect x=\"10\" y=\"10\" width=\"10\" height=\"10\" fill=\"#00ff00\"/></svg>" := by
  have hpx : (run (initialState ⟨4, 4⟩)
      [Event.colorChange (str "#ff0000"), Event.pixelClick 0 0 false,
       Event.colorChange (str "#00ff00"), Event.pixelClick 1 1 false,
       Event.pixelClick 0 0 true]).pixels = [(getPixelKey 1 1, str "#00ff00")] := by decide
  refine ⟨hpx, ?_, ?_⟩
  · intro x y
    rw [hpx]
    simp only [mapGet]
    by_cases hxy : x = 1 ∧ y = 1
    · obtain ⟨rfl, rfl⟩ := hxy
      simp
    · rw [if_neg, if_neg hxy]
      intro heq
      exact hxy ⟨(getPixelKey_inj heq).1.symm, (getPixelKey_inj heq).2.symm⟩
  · rw [hpx]
    decide

/-- Every handler keeps the pixel map free of duplicate keys (a real
JS `Map` cannot hold two entries with one key). -/
theorem step_nodupKeys (s : AppState) (ev : Event) (h : NodupKeys s.pixels) :
    NodupKeys (step s ev).pixels := by
  cases ev with
  | colorChange c => exact h
  | swatchClick c => exact h
  | pixelClick x y shift =>
    cases shift
    · simpa [step, handlePixelClick] using nodupKeys_mapSet _ h _ _
    · simpa [step, handlePixelClick] using nodupKeys_mapDelete _ h _
  | mouseDown => exact h
  | mouseUp => exact h
  | pixelMouseEnter x y alt =>
    by_cases hd : s.isDrawing
    · simpa [step, handlePixelMouseEnter, hd] using nodupKeys_mapSet _ h _ _
    · simpa [step, handlePixelMouseEnter, hd] using h
  | touchStart x y t =>
    by_cases ht : t > 1
    · simpa [step, handleTouchClick, handleMouseDown, ht] using nodupKeys_mapDelete _ h _
    · simpa [step, handleTouchClick, handleMouseDown, ht] using nodupKeys_mapSet _ h _ _
  | touchEnd => exact h
  | touchMove x y t =>
    by_cases hd : s.isDrawing
    · simpa [step, handleTouchMove, hd] using nodupKeys_mapSet _ h _ _
    · simpa [step, handleTouchMove, hd] using h
  | clear => simp [step, clearCanvas, NodupKeys, mapKeys]

/-- Every state reachable from the initial state has a well-formed
(duplicate-free) pixel map. -/
theorem run_nodupKeys (g : GridSize) (evs : List Event) :
    NodupKeys (run (initialState g) evs).pixels := by
  suffices h : ∀ s : AppState, NodupKeys s.pixels → NodupKeys (run s evs).pixels from
    h _ (by simp [initialState, NodupKeys, mapKeys])
  induction evs with
  | nil => exact fun _ hs => hs
  | cons ev evs ih => exact fun s hs => ih _ (step_nodupKeys s ev hs)

/-- C5: while `isDrawing`, a gesture-move-into-cell event (mouse enter
or touch move) always paints the entered cell with the selected color
and removes no entry, whatever modifier the DOM event carried; in the
concrete drag-then-attempt-erase-by-drag scenario, `(0,1)` stays
painted `#000000`. -/
theorem claim_C5_drag_paint_never_erases (s : AppState) (x y : Nat)
    (alt : Bool) (touches : Nat) (h : s.isDrawing = true) :
    (step s (Event.pixelMouseEnter x y alt)).pixels =
      mapSet s.pixels (getPixelKey x y) s.selectedColor ∧
    (step s (Event.touchMove x y touches)).pixels =
      mapSet s.pixels (getPixelKey x y) s.selectedColor ∧
    mapGet (mapSet s.pixels (getPixelKey x y) s.selectedColor) (getPixelKey x y) =
      some s.selectedColor ∧
    (∀ k, mapGet s.pixels k ≠ none →
      mapGet (mapSet s.pixels (getPixelKey x y) s.selectedColor) k ≠ none) ∧
    mapGet (run (initialState ⟨16, 16⟩)
      [Event.colorChange (str "#000000"), Event.mouseDown, Event.pixelClick 0 0 false,
       Event.pixelMouseEnter 0 1 false, Event.pixelMouseEnter 0 2 false, Event.mouseUp,
       Event.mouseDown, Event.pixelMouseEnter 0 1 true, Event.mouseUp]).pixels
      (getPixelKey 0 1) = some (str "#000000") := by
  refine ⟨?_, ?_, ?_, ?_, by decide⟩
  · simp [step, handlePixelMouseEnter, h]
  · simp [step, handleTouchMove, h]
  · rw [mapGet_mapSet]
    simp
  · intro k hk
    rw [mapGet_mapSet]
    by_cases hkk : getPixelKey x y = k
    · simp [hkk]
    · simpa [hkk] using hk

/-- Witness for C5: entering `(2,3)` with shift held, while drawing
from the initial state, paints it. -/
theorem claim_C5_drag_paint_never_erases_witness :
    (step (handleMouseDown (initialState ⟨16, 16⟩)) (Event.pixelMouseEnter 2 3 true)).pixels =
      mapSet (handleMouseDown (initialState ⟨16, 16⟩)).pixels (getPixelKey 2 3)
        (handleMouseDown (initialState ⟨16, 16⟩)).selectedColor :=
  (claim_C5_drag_paint_never_erases (handleMouseDown (initialState ⟨16, 16⟩)) 2 3 true 2 rfl).1

/-- C6: an in-bounds cell-activation with the alternate modifier
(shift-click, or a tap with a second simultaneous contact) deletes the
cell's entry from the pixel map and leaves the color history (and the
selected color) unchanged. -/
theorem claim_C6_alternate_modifier_erases (s : AppState) (x y touches : Nat)
    (hnd : NodupKeys s.pixels) (hx : x < s.gridSize.width)
    (hy : y < s.gridSize.height) (ht : 1 < touches) :
    ((step s (Event.pixelClick x y true)).pixels = mapDelete s.pixels (getPixelKey x y) ∧
     mapGet (step s (Event.pixelClick x y true)).pixels (getPixelKey x y) = none ∧
     (step s (Event.pixelClick x y true)).recentColors = s.recentColors ∧
     (step s (Event.pixelClick x y true)).selectedColor = s.selectedColor) ∧
    ((step s (Event.touchStart x y touches)).pixels = mapDelete s.pixels (getPixelKey x y) ∧
     mapGet (step s (Event.touchStart x y touches)).pixels (getPixelKey x y) = none ∧
     (step s (Event.touchStart x y touches)).recentColors = s.recentColors ∧
     (step s (Event.touchStart x y touches)).selectedColor = s.selectedColor) := by
  have h1 : (step s (Event.pixelClick x y true)).pixels =
      mapDelete s.pixels (getPixelKey x y) := by
    simp [step, handlePixelClick]
  have h2 : (step s (Event.touchStart x y touches)).pixels =
      mapDelete s.pixels (getPixelKey x y) := by
    simp [step, handleTouchClick, handleMouseDown, ht]
  refine ⟨⟨h1, ?_, rfl, rfl⟩, ⟨h2, ?_, ?_, ?_⟩⟩
  · rw [h1, mapGet_mapDelete _ hnd]
    simp
  · rw [h2, mapGet_mapDelete _ hnd]
    simp
  · simp [step, handleTouchClick, handleMouseDown, ht]
  · simp [step, handleTouchClick, handleMouseDown, ht]

/-- Witness for C6 at `(2,3)` on the initial 16×16 state with a
two-contact tap. -/
theorem claim_C6_alternate_modifier_erases_witness :
    mapGet (step (initialState ⟨16, 16⟩) (Event.pixelClick 2 3 true)).pixels
      (getPixelKey 2 3) = none ∧
    mapGet (step (initialState ⟨16, 16⟩) (Event.touchStart 2 3 2)).pixels
      (getPixelKey 2 3) = none :=
  ⟨(claim_C6_alternate_modifier_erases (initialState ⟨16, 16⟩) 2 3 2
      (by simp [initialState, NodupKeys, mapKeys]) (by decide) (by decide) (by decide)).1.2.1,
   (claim_C6_alternate_modifier_erases (initialState ⟨16, 16⟩) 2 3 2
      (by simp [initialState, NodupKeys, mapKeys]) (by decide) (by decide) (by decide)).2.2.1⟩

/-- A discrete in-bounds paint or erase operation (spec §8). -/
inductive PaintOp where
  | paint (x y : Nat) (color : Str)
  | erase (x y : Nat)

/-- The event sequence realising one operation in the session: painting
a cell with a given color is selecting that color and then clicking the
cell; erasing is a shift-click on the cell. -/
def opEvents : PaintOp → List Event
  | .paint x y c => [Event.colorChange c, Event.pixelClick x y false]
  | .erase x y => [Event.pixelClick x y true]

/-- The event sequence realising a whole operation list. -/
def opsEvents (ops : List PaintOp) : List Event := (ops.map opEvents).flatten

/-- An operation addresses a cell inside the grid geometry. -/
def opInBounds (g : GridSize) : PaintOp → Prop
  | .paint x y _ => x < g.width ∧ y < g.height
  | .erase x y => x < g.width ∧ y < g.height

/-- The specification-side mapping step (spec §8): insert-or-overwrite
for paint, delete for erase, on a mapping keyed by coordinate. -/
def specApply (m : Nat × Nat → Option Str) : PaintOp → (Nat × Nat → Option Str)
  | .paint x y c => fun p => if p = (x, y) then some c else m p
  | .erase x y => fun p => if p = (x, y) then none else m p

/-- The specification-side grid: the left-to-right fold of the
operation sequence over the initially empty coordinate-keyed mapping. -/
def specGrid (ops : List PaintOp) : Nat × Nat → Option Str :=
  ops.foldl specApply (fun _ => none)

theorem run_opsEvents_refines : ∀ (ops : List PaintOp) (s : AppState)
    (m : Nat × Nat → Option Str), NodupKeys s.pixels →
    (∀ x y, mapGet s.pixels (getPixelKey x y) = m (x, y)) →
    ∀ x y, mapGet (run s (opsEvents ops)).pixels (getPixelKey x y) =
      (ops.foldl specApply m) (x, y)
  | [], _, _, _, hsim, x, y => hsim x y
  | op :: ops, s, m, hnd, hsim, x, y => by
    have hsplit : run s (opsEvents (op :: ops)) =
        run (run s (opEvents op)) (opsEvents ops) := by
      simp [opsEvents, run, List.foldl_append]
    rw [hsplit]
    show mapGet (run (run s (opEvents op)) (opsEvents ops)).pixels (getPixelKey x y) =
      (ops.foldl specApply (specApply m op)) (x, y)
    cases op with
    | paint x0 y0 c =>
      have hpx : (run s (opEvents (PaintOp.paint x0 y0 c))).pixels =
          mapSet s.pixels (getPixelKey x0 y0) c := by
        simp [run, opEvents, step, handleColorChange, handlePixelClick]
      have hnd' : NodupKeys (run s (opEvents (PaintOp.paint x0 y0 c))).pixels := by
        rw [hpx]
        exact nodupKeys_mapSet _ hnd _ _
      have hsim' : ∀ x y, mapGet (run s (opEvents (PaintOp.paint x0 y0 c))).pixels
          (getPixelKey x y) = specApply m (PaintOp.paint x0 y0 c) (x, y) := by
        intro x y
        rw [hpx, mapGet_mapSet]
        simp only [specApply]
        by_cases hc : x = x0 ∧ y = y0
        · obtain ⟨rfl, rfl⟩ := hc
          simp
        · have hA : ¬getPixelKey x0 y0 = getPixelKey x y := fun heq =>
            hc ⟨(getPixelKey_inj heq).1.symm, (getPixelKey_inj heq).2.symm⟩
          have hB : ¬(x, y) = (x0, y0) := fun heq =>
            hc ⟨congrArg Prod.fst heq, congrArg Prod.snd heq⟩
          rw [if_neg hA, if_neg hB]
          exact hsim x y
      exact run_opsEvents_refines ops _ _ hnd' hsim' x y
    | erase x0 y0 =>
      have hpx : (run s (opEvents (PaintOp.erase x0 y0))).pixels =
          mapDelete s.pixels (getPixelKey x0 y0) := by
        simp [run, opEvents, step, handlePixelClick]
      have hnd' : NodupKeys (run s (opEvents (PaintOp.erase x0 y0))).pixels := by
        rw [hpx]
        exact nodupKeys_mapDelete _ hnd _
      have hsim' : ∀ x y, mapGet (run s (opEvents (PaintOp.erase x0 y0))).pixels
          (getPixelKey x y) = specApply m (PaintOp.erase x0 y0) (x, y) := by
        intro x y
        rw [hpx, mapGet_mapDelete _ hnd]
        simp only [specApply]
        by_cases hc : x = x0 ∧ y = y0
        · obtain ⟨rfl, rfl⟩ := hc
          simp
        · have hA : ¬getPixelKey x0 y0 = getPixelKey x y := fun heq =>
            hc ⟨(getPixelKey_inj heq).1.symm, (getPixelKey_inj heq).2.symm⟩
          have hB : ¬(x, y) = (x0, y0) := fun heq =>
            hc ⟨congrArg Prod.fst heq, congrArg Prod.snd heq⟩
          rw [if_neg hA, if_neg hB]
          exact hsim x y
      exact run_opsEvents_refines ops _ _ hnd' hsim' x y

/-- C8: for every finite sequence of in-bounds paint/erase operations
applied from the empty grid, the session's pixel map agrees, at every
coordinate, with the left-to-right fold of the sequence over a
coordinate-keyed mapping (insert-or-overwrite for paint, delete for
erase; order-sensitive, last write wins). -/
theorem claim_C8_fold_refinement (g : GridSize) (ops : List PaintOp)
    (hb : ∀ op ∈ ops, opInBounds g op) :
    ∀ x y, mapGet (run (initialState g) (opsEvents ops)).pixels (getPixelKey x y) =
      specGrid ops (x, y) :=
  run_opsEvents_refines ops (initialState g) (fun _ => none)
    (by simp [initialState, NodupKeys, mapKeys]) (fun _ _ => rfl)

/-- Witness for C8 on the C7-style operation list. -/
theorem claim_C8_fold_refinement_witness :
    mapGet (run (initialState ⟨4, 4⟩)
      (opsEvents [PaintOp.paint 0 0 (str "#ff0000"), PaintOp.paint 1 1 (str "#00ff00"),
        PaintOp.erase 0 0])).pixels (getPixelKey 1 1) =
      specGrid [PaintOp.paint 0 0 (str "#ff0000"), PaintOp.paint 1 1 (str "#00ff00"),
        PaintOp.erase 0 0] (1, 1) :=
  claim_C8_fold_refinement ⟨4, 4⟩ _
    (by
      intro op hop
      rcases List.mem_cons.1 hop with rfl | hop
      · exact ⟨by decide, by decide⟩
      · rcases List.mem_cons.1 hop with rfl | hop
        · exact ⟨by decide, by decide⟩
        · rcases List.mem_cons.1 hop with rfl | hop
          · exact ⟨by decide, by decide⟩
          · cases hop) 1 1

theorem mapGet_pair_swap {k1 k2 v1 v2 : Str} (h : ¬k1 = k2) (k : Str) :
    mapGet [(k1, v1), (k2, v2)] k = mapGet [(k2, v2), (k1, v1)] k := by
  simp only [mapGet]
  by_cases h1 : k1 = k
  · subst h1
    have h2' : ¬k2 = k1 := fun hh => h hh.symm
    simp [h2']
  · by_cases h2 : k2 = k
    · subst h2
      simp [h]
    · simp [h1, h2]

/-- C1: the claim fails on the code. The two runs below paint the same
two cells with the same colors in opposite orders; the resulting pixel
maps are equal as coordinate-to-color mappings, yet `downloadAsSVG`
(which iterates the `Map` in insertion order) emits different byte
strings. The spec's requirement of byte-identical output given equal
grid content is violated. -/
theorem claim_C1_svg_bytes_depend_on_paint_order :
    (∀ k, mapGet (run (initialState ⟨16, 16⟩)
        [Event.colorChange (str "#ff0000"), Event.pixelClick 0 0 false,
         Event.colorChange (str "#00ff00"), Event.pixelClick 1 0 false]).pixels k =
      mapGet (run (initialState ⟨16, 16⟩)
        [Event.colorChange (str "#00ff00"), Event.pixelClick 1 0 false,
         Event.colorChange (str "#ff0000"), Event.pixelClick 0 0 false]).pixels k) ∧
    svgDocument ⟨16, 16⟩ (run (initialState ⟨16, 16⟩)
        [Event.colorChange (str "#ff0000"), Event.pixelClick 0 0 false,
         Event.colorChange (str "#00ff00"), Event.pixelClick 1 0 false]).pixels ≠
      svgDocument ⟨16, 16⟩ (run (initialState ⟨16, 16⟩)
        [Event.colorChange (str "#00ff00"), Event.pixelClick 1 0 false,
         Event.colorChange (str "#ff0000"), Event.pixelClick 0 0 false]).pixels := by
  have h1 : (run (initialState ⟨16, 16⟩)
      [Event.colorChange (str "#ff0000"), Event.pixelClick 0 0 false,
       Event.colorChange (str "#00ff00"), Event.pixelClick 1 0 false]).pixels =
      [(getPixelKey 0 0, str "#ff0000"), (getPixelKey 1 0, str "#00ff00")] := by decide
  have h2 : (run (initialState ⟨16, 16⟩)
      [Event.colorChange (str "#00ff00"), Event.pixelClick 1 0 false,
       Event.colorChange (str "#ff0000"), Event.pixelClick 0 0 false]).pixels =
      [(getPixelKey 1 0, str "#00ff00"), (getPixelKey 0 0, str "#ff0000")] := by decide
  constructor
  · intro k
    rw [h1, h2]
    exact mapGet_pair_swap (by decide) k
  · rw [h1, h2]
    decide

/-- C2: counterexample. After picking `#ff0000` through the color
picker, clicking the `#3b82f6` recent-color swatch sets the selected
color but does not call `ColorHistory.use`: the history is left as
`[#ff0000, #3b82f6]`, so the freshly selected color is not at
index 0. -/
theorem claim_C2_swatch_counterexample :
    (run (initialState ⟨16, 16⟩)
      [Event.colorChange (str "#ff0000"), Event.swatchClick (str "#3b82f6")]).selectedColor =
      str "#3b82f6" ∧
    (run (initialState ⟨16, 16⟩)
      [Event.colorChange (str "#ff0000"), Event.swatchClick (str "#3b82f6")]).recentColors =
      [str "#ff0000", str "#3b82f6"] ∧
    (run (initialState ⟨16, 16⟩)
      [Event.colorChange (str "#ff0000"), Event.swatchClick (str "#3b82f6")]).recentColors.head?
      ≠ some (run (initialState ⟨16, 16⟩)
        [Event.colorChange (str "#ff0000"), Event.swatchClick (str "#3b82f6")]).selectedColor := by
  refine ⟨by decide, by decide, by decide⟩

/-- C2 (amended): selecting any color through the color picker
(`handleColorChange`) sets the selected color and records it via
`addToRecentColors`, so it ends up a member of the history at index 0;
clicking a recent-color swatch only sets the selected color and leaves
the history unchanged — so the color remains a member of the history
whenever it already was one (swatches only display history members),
but it is not moved to index 0. -/
theorem claim_C2_amended_color_selection (s : AppState) (c : Str) :
    ((handleColorChange c s).selectedColor = c ∧
     (handleColorChange c s).recentColors = addToRecentColors c s.recentColors ∧
     (handleColorChange c s).recentColors.head? = some c ∧
     c ∈ (handleColorChange c s).recentColors) ∧
    ((swatchClick c s).selectedColor = c ∧
     (swatchClick c s).recentColors = s.recentColors ∧
     (c ∈ s.recentColors → c ∈ (swatchClick c s).recentColors)) :=
  ⟨⟨rfl, rfl, addToRecentColors_head c s.recentColors,
    mem_addToRecentColors c s.recentColors⟩, ⟨rfl, rfl, fun hc => hc⟩⟩

/-- Witness for the amended C2: a fresh color `#ff0000` picked from
the initial state lands at index 0 of the history, and a swatch click
on the seed color leaves the history unchanged while the seed stays a
member. -/
theorem claim_C2_amended_color_selection_witness :
    (handleColorChange (str "#ff0000") (initialState ⟨16, 16⟩)).recentColors.head? =
      some (str "#ff0000") ∧
    (swatchClick (str "#3b82f6") (initialState ⟨16, 16⟩)).recentColors =
      (initialState ⟨16, 16⟩).recentColors ∧
    str "#3b82f6" ∈ (swatchClick (str "#3b82f6") (initialState ⟨16, 16⟩)).recentColors :=
  ⟨(claim_C2_amended_color_selection (initialState ⟨16, 16⟩) (str "#ff0000")).1.2.2.1,
   (claim_C2_amended_color_selection (initialState ⟨16, 16⟩) (str "#3b82f6")).2.2.1,
   (claim_C2_amended_color_selection (initialState ⟨16, 16⟩) (str "#3b82f6")).2.2.2
     (by decide)⟩

/-- C3: counterexample. With `A = #ff0000` and `B = #00ff00` (distinct,
and both different from the seed color `#3b82f6`), the history after
select `A`, select `A`, select `B` is `[B, A, #3b82f6]`, not `[B, A]`:
the seed entry is still present. -/
theorem claim_C3_select_scenario_counterexample :
    (run (initialState ⟨16, 16⟩)
      [Event.colorChange (str "#ff0000"), Event.colorChange (str "#ff0000"),
       Event.colorChange (str "#00ff00")]).recentColors =
      [str "#00ff00", str "#ff0000", str "#3b82f6"] ∧
    (run (initialState ⟨16, 16⟩)
      [Event.colorChange (str "#ff0000"), Event.colorChange (str "#ff0000"),
       Event.colorChange (str "#00ff00")]).recentColors ≠
      [str "#00ff00", str "#ff0000"] := by
  refine ⟨by decide, by decide⟩

theorem addTo_singleton_self (c : Str) : addToRecentColors c [c] = [c] := by
  simp [addToRecentColors_eq]

theorem addTo_singleton_ne (c a : Str) (h : ¬a = c) :
    addToRecentColors c [a] = [c, a] := by
  simp [addToRecentColors_eq, h]

theorem addTo_pair_fst (c b : Str) (hb : ¬b = c) :
    addToRecentColors c [c, b] = [c, b] := by
  simp [addToRecentColors_eq, hb]

theorem addTo_pair_snd (c a : Str) (ha : ¬a = c) :
    addToRecentColors c [a, c] = [c, a] := by
  simp [addToRecentColors_eq, ha]

theorem addTo_pair_ne (c a b : Str) (ha : ¬a = c) (hb : ¬b = c) :
    addToRecentColors c [a, b] = [c, a, b] := by
  simp [addToRecentColors_eq, ha, hb]

/-- C3 (amended): starting from the initial session state, selecting
`A`, `A`, `B` (with `A ≠ B`) leaves the history `[B, A]` exactly when
`A` or `B` is the seed color `#3b82f6`; otherwise the seed entry
survives at the tail and the history is `[B, A, #3b82f6]`. -/
theorem claim_C3_amended_select_scenario (g : GridSize) (A B : Str) (hAB : A ≠ B) :
    (run (initialState g)
      [Event.colorChange A, Event.colorChange A, Event.colorChange B]).recentColors =
      if A = str "#3b82f6" ∨ B = str "#3b82f6" then [B, A]
      else [B, A, str "#3b82f6"] := by
  have hrun : (run (initialState g)
      [Event.colorChange A, Event.colorChange A, Event.colorChange B]).recentColors =
      addToRecentColors B (addToRecentColors A (addToRecentColors A [str "#3b82f6"])) := rfl
  rw [hrun]
  have hBA : ¬A = B := hAB
  by_cases hA : A = str "#3b82f6"
  · subst hA
    rw [if_pos (Or.inl rfl)]
    rw [addTo_singleton_self, addTo_singleton_self, addTo_singleton_ne B _ hBA]
  · have hsA : ¬str "#3b82f6" = A := fun h => hA h.symm
    rw [addTo_singleton_ne A _ hsA, addTo_pair_fst A _ hsA]
    by_cases hB : B = str "#3b82f6"
    · subst hB
      rw [if_pos (Or.inr rfl)]
      exact addTo_pair_snd _ A hA
    · have hsB : ¬str "#3b82f6" = B := fun h => hB h.symm
      rw [if_neg (fun hor => hor.elim hA hB)]
      exact addTo_pair_ne B A _ hBA hsB

/-- Witness for the amended C3 with `A = #ff0000`, `B = #00ff00`. -/
theorem claim_C3_amended_select_scenario_witness :
    (run (initialState ⟨16, 16⟩)
      [Event.colorChange (str "#ff0000"), Event.colorChange (str "#ff0000"),
       Event.colorChange (str "#00ff00")]).recentColors =
      if str "#ff0000" = str "#3b82f6" ∨ str "#00ff00" = str "#3b82f6" then
        [str "#00ff00", str "#ff0000"]
      else [str "#00ff00", str "#ff0000", str "#3b82f6"] :=
  claim_C3_amended_select_scenario ⟨16, 16⟩ (str "#ff0000") (str "#00ff00") (by decide)
